import Mathlib

/-!
Shallow embedding of the laser clock renderer (src/laserclock.cpp) and proofs
about its rendering pipeline: point buffer, path interpolator, glyph library,
clock-face composer and refresh scheduler.

Modelling conventions:
* C `int` values become `ℤ`; loop counters and list lengths become `ℕ`.
* The float expressions of `DrawLineTo` are modelled by their exact rational
  values: the C conversion `(int)` of `x_start + (x_length/num_segments)*i`
  truncates toward zero, which for the exact value
  `(x_start*n + x_length*i)/n` is `Int.tdiv` by `n`.
* `ceilf(vector_length/divider)` is modelled as the least natural `k` with
  `k * divider ≥ sqrt(dx^2+dy^2)`, i.e. the exact ceiling of
  `distance/divider` (the float rounding of `sqrtf`/`ceilf` is idealised).
* The global mutable state (`vector_list`, `num_points`, `x_start`,
  `y_start`) becomes the structure `St`; the `fprintf` clipping diagnostics
  are counted in `St.warnings`.
* The run-time configuration (`divider`, `dwell`, `hidden_dwell`) is the
  read-only structure `Config`; it is never modified by any operation.
-/

namespace LaserClock

/-- Capacity of the global point buffer, `#define MAX_POINTS 10000`. -/
def MAX_POINTS : ℕ := 10000

/-- One stored display point, mirroring `HeliosDacClass::HeliosPoint`
(coordinates, RGB, intensity). -/
structure HeliosPoint where
  x : ℤ
  y : ℤ
  r : ℕ
  g : ℕ
  b : ℕ
  i : ℕ
deriving DecidableEq, Repr

/-- The mutable globals of the program: the point buffer `vector_list`
(whose length is `num_points`), the clipping-diagnostic count, and the pen
position `(x_start, y_start)`. -/
structure St where
  vector_list : List HeliosPoint
  warnings : ℕ
  x_start : ℤ
  y_start : ℤ
deriving DecidableEq, Repr

/-- Read-only configuration: the segment `divider` (a positive value,
default 50.0) and the two dwell counts. -/
structure Config where
  divider : ℚ
  divider_pos : 0 < divider
  dwell : ℕ
  hidden_dwell : ℕ

/-- The `switch (color)` RGB table of `DrawPoint`; identifiers outside 0–7
fall through to white. -/
def colorRGB (color : ℤ) : ℕ × ℕ × ℕ :=
  if color = 0 then (0, 0, 0)
  else if color = 1 then (255, 0, 0)
  else if color = 2 then (0, 255, 0)
  else if color = 3 then (0, 0, 255)
  else if color = 4 then (255, 255, 0)
  else if color = 5 then (255, 0, 255)
  else if color = 6 then (0, 255, 255)
  else if color = 7 then (255, 255, 255)
  else (255, 255, 255)

/-- Clipping of one coordinate, exactly as in `DrawPoint`: values above 4095
are clamped to 4095 (with a diagnostic), negative values are clamped to 0
(without a diagnostic). Returns the stored value and the number of
diagnostics emitted (0 or 1). -/
def clipCoord (v : ℤ) : ℤ × ℕ :=
  if 4095 < v then (4095, 1) else if v < 0 then (0, 0) else (v, 0)

/-- The point stored by `DrawPoint x y color` (after clipping and color
mapping; intensity is always `0xFF`). -/
def storePoint (x y color : ℤ) : HeliosPoint :=
  ⟨(clipCoord x).1, (clipCoord y).1,
   (colorRGB color).1, (colorRGB color).2.1, (colorRGB color).2.2, 255⟩

/-- Number of clipping diagnostics `DrawPoint x y _` prints. -/
def warnCount (x y : ℤ) : ℕ := (clipCoord x).2 + (clipCoord y).2

/-- `DrawPoint` from the source: if the buffer is full the call is a no-op
returning 0; otherwise the clipped, color-mapped point is appended and the
old `num_points` is returned. The pen position is not touched. -/
def DrawPoint (x y color : ℤ) (s : St) : St × ℕ :=
  if MAX_POINTS ≤ s.vector_list.length then (s, 0)
  else
    ({ s with
        vector_list := s.vector_list ++ [storePoint x y color],
        warnings := s.warnings + warnCount x y },
     s.vector_list.length)

/-- Fuel-bounded search for the least `k ≥ start` satisfying `p`. -/
def leastK (p : ℕ → Bool) : ℕ → ℕ → ℕ
  | 0, start => start
  | fuel + 1, start => if p start then start else leastK p fuel (start + 1)

/-- Segment count of `DrawLineTo`: the exact value of
`ceilf(sqrtf(dx*dx + dy*dy) / divider)`, computed as the least `k : ℕ` with
`(dx*dx+dy*dy) * den^2 ≤ (k * num)^2` where `divider = num/den`. -/
def numSegments (cfg : Config) (dx dy : ℤ) : ℕ :=
  let N : ℕ := (dx * dx + dy * dy).toNat
  let a : ℕ := cfg.divider.num.toNat
  let b : ℕ := cfg.divider.den
  leastK (fun k => Nat.ble (N * (b * b)) (k * a * (k * a))) (N * b + 1) 0

/-- The `i`-th interpolated coordinate of `DrawLineTo`: the exact value of
`x0 + (x1 - x0)/n * i` converted to `int` (C truncation toward zero). -/
def interpCoord (x0 x1 : ℤ) (n : ℕ) (i : ℕ) : ℤ :=
  Int.tdiv (x0 * n + (x1 - x0) * i) n

/-- The interpolation loop's sequence of target coordinates for a move from
`(xs, ys)` to `(x, y)` in `n` segments (loop counter `i = 1 .. n`). -/
def interpTargets (xs ys x y : ℤ) (n : ℕ) : List (ℤ × ℤ) :=
  (List.range n).map (fun i => (interpCoord xs x n (i + 1), interpCoord ys y n (i + 1)))

/-- Sequentially feed a list of `(x, y, color)` arguments to `DrawPoint`. -/
def drawAll (args : List (ℤ × ℤ × ℤ)) (s : St) : St :=
  args.foldl (fun a p => (DrawPoint p.1 p.2.1 p.2.2 a).1) s

/-- `DrawLineTo` from the source: interpolate from the pen position to
`(x, y)` in `numSegments` steps when the color is visible (`0 < color`),
then dwell at the destination (`hidden_dwell` repeats for blank color,
`dwell` repeats otherwise), finally move the pen to the destination.
The unused `status` return value of the C function is dropped. -/
def DrawLineTo (cfg : Config) (x y color : ℤ) (s : St) : St :=
  let n := numSegments cfg (x - s.x_start) (y - s.y_start)
  let s1 :=
    if 0 < color then
      drawAll ((interpTargets s.x_start s.y_start x y n).map
        (fun p => (p.1, p.2, color))) s
    else s
  let s2 :=
    if color = 0 then drawAll (List.replicate cfg.hidden_dwell (x, y, color)) s1
    else drawAll (List.replicate cfg.dwell (x, y, color)) s1
  { s2 with x_start := x, y_start := y }

/-- One requested pen move: target coordinates and color argument of a
`DrawLineTo` call. -/
structure Move where
  x : ℤ
  y : ℤ
  color : ℤ
deriving DecidableEq, Repr

/-- Execute a sequence of pen moves through `DrawLineTo`. -/
def execMoves (cfg : Config) (ms : List Move) (s : St) : St :=
  ms.foldl (fun a m => DrawLineTo cfg m.x m.y m.color a) s

/-- The `DrawLineTo` calls of `DrawZero`. -/
def zeroMoves (x y color size : ℤ) : List Move :=
  [⟨x, y, 0⟩, ⟨x + size, y, color⟩, ⟨x + size, y - 2 * size, color⟩,
   ⟨x, y - 2 * size, color⟩, ⟨x, y, color⟩]

/-- The `DrawLineTo` calls of `DrawOne` (the blanked move is issued twice in
the source, as a dwell-emphasis). -/
def oneMoves (x y color size : ℤ) : List Move :=
  [⟨x + size, y, 0⟩, ⟨x + size, y, 0⟩, ⟨x + size, y - 2 * size, color⟩]

/-- The `DrawLineTo` calls of `DrawTwo`. -/
def twoMoves (x y color size : ℤ) : List Move :=
  [⟨x, y, 0⟩, ⟨x + size, y, color⟩, ⟨x + size, y - size, color⟩,
   ⟨x, y - size, color⟩, ⟨x, y - 2 * size, color⟩, ⟨x + size, y - 2 * size, color⟩]

/-- The `DrawLineTo` calls of `DrawThree`. -/
def threeMoves (x y color size : ℤ) : List Move :=
  [⟨x, y, 0⟩, ⟨x + size, y, color⟩, ⟨x + size, y - 2 * size, color⟩,
   ⟨x, y - 2 * size, color⟩, ⟨x, y - size, 0⟩, ⟨x + size, y - size, color⟩]

/-- The `DrawLineTo` calls of `DrawFour`. -/
def fourMoves (x y color size : ℤ) : List Move :=
  [⟨x, y, 0⟩, ⟨x, y - size, color⟩, ⟨x + size, y - size, color⟩,
   ⟨x + size, y, 0⟩, ⟨x + size, y - 2 * size, color⟩]

/-- The `DrawLineTo` calls of `DrawFive`. -/
def fiveMoves (x y color size : ℤ) : List Move :=
  [⟨x + size, y, 0⟩, ⟨x, y, color⟩, ⟨x, y - size, color⟩,
   ⟨x + size, y - size, color⟩, ⟨x + size, y - 2 * size, color⟩,
   ⟨x, y - 2 * size, color⟩]

/-- The `DrawLineTo` calls of `DrawSix`. -/
def sixMoves (x y color size : ℤ) : List Move :=
  [⟨x + size, y, 0⟩, ⟨x, y, color⟩, ⟨x, y - 2 * size, color⟩,
   ⟨x + size, y - 2 * size, color⟩, ⟨x + size, y - size, color⟩,
   ⟨x, y - size, color⟩]

/-- The `DrawLineTo` calls of `DrawSeven`. -/
def sevenMoves (x y color size : ℤ) : List Move :=
  [⟨x, y, 0⟩, ⟨x + size, y, color⟩, ⟨x + size, y - 2 * size, color⟩]

/-- The `DrawLineTo` calls of `DrawEight`. -/
def eightMoves (x y color size : ℤ) : List Move :=
  [⟨x, y, 0⟩, ⟨x + size, y, color⟩, ⟨x + size, y - 2 * size, color⟩,
   ⟨x, y - 2 * size, color⟩, ⟨x, y, color⟩, ⟨x, y - size, 0⟩,
   ⟨x + size, y - size, color⟩]

/-- The `DrawLineTo` calls of `DrawNine`. -/
def nineMoves (x y color size : ℤ) : List Move :=
  [⟨x + size, y - 2 * size, 0⟩, ⟨x + size, y, color⟩, ⟨x, y, color⟩,
   ⟨x, y - size, color⟩, ⟨x + size, y - size, color⟩]

/-- The dispatch of `DrawDigit`: the move list of the selected digit
routine; the `default` branch of the `switch` issues no moves. -/
def digitMoves (n x y color size : ℤ) : List Move :=
  if n = 0 then zeroMoves x y color size
  else if n = 1 then oneMoves x y color size
  else if n = 2 then twoMoves x y color size
  else if n = 3 then threeMoves x y color size
  else if n = 4 then fourMoves x y color size
  else if n = 5 then fiveMoves x y color size
  else if n = 6 then sixMoves x y color size
  else if n = 7 then sevenMoves x y color size
  else if n = 8 then eightMoves x y color size
  else if n = 9 then nineMoves x y color size
  else []

/-- `DrawDigit` from the source: run the selected digit routine's pen moves
(or nothing for digits outside 0–9). -/
def DrawDigit (cfg : Config) (n x y color size : ℤ) (s : St) : St :=
  execMoves cfg (digitMoves n x y color size) s

/-- The `DrawLineTo` calls of `DrawSquare` (`offset = size/2`, C integer
division). -/
def squareMoves (x y color size : ℤ) : List Move :=
  [⟨x - Int.tdiv size 2, y - Int.tdiv size 2, 0⟩,
   ⟨x - Int.tdiv size 2 + size, y - Int.tdiv size 2, color⟩,
   ⟨x - Int.tdiv size 2 + size, y - Int.tdiv size 2 + size, color⟩,
   ⟨x - Int.tdiv size 2, y - Int.tdiv size 2 + size, color⟩,
   ⟨x - Int.tdiv size 2, y - Int.tdiv size 2, color⟩]

/-- `DrawSquare` from the source. -/
def DrawSquare (cfg : Config) (x y color size : ℤ) (s : St) : St :=
  execMoves cfg (squareMoves x y color size) s

/-- A stroke of the authored digit table of the specification: a pen move to
an offset `(dx, dy)` from the glyph origin, either blanked or visible. -/
inductive Stroke where
  | blankTo (dx dy : ℤ) : Stroke
  | drawTo (dx dy : ℤ) : Stroke
deriving DecidableEq, Repr

/-- Modelled from the spec: the literal authored stroke table of section 4.3
(digit shapes as (dx, dy) offsets from the origin, size `s`). -/
def specDigitStrokes (n : ℕ) (s : ℤ) : List Stroke :=
  match n with
  | 0 => [.blankTo 0 0, .drawTo s 0, .drawTo s (-(2 * s)), .drawTo 0 (-(2 * s)),
          .drawTo 0 0]
  | 1 => [.blankTo s 0, .blankTo s 0, .drawTo s (-(2 * s))]
  | 2 => [.blankTo 0 0, .drawTo s 0, .drawTo s (-s), .drawTo 0 (-s),
          .drawTo 0 (-(2 * s)), .drawTo s (-(2 * s))]
  | 3 => [.blankTo 0 0, .drawTo s 0, .drawTo s (-(2 * s)), .drawTo 0 (-(2 * s)),
          .blankTo 0 (-s), .drawTo s (-s)]
  | 4 => [.blankTo 0 0, .drawTo 0 (-s), .drawTo s (-s), .blankTo s 0,
          .drawTo s (-(2 * s))]
  | 5 => [.blankTo s 0, .drawTo 0 0, .drawTo 0 (-s), .drawTo s (-s),
          .drawTo s (-(2 * s)), .drawTo 0 (-(2 * s))]
  | 6 => [.blankTo s 0, .drawTo 0 0, .drawTo 0 (-(2 * s)), .drawTo s (-(2 * s)),
          .drawTo s (-s), .drawTo 0 (-s)]
  | 7 => [.blankTo 0 0, .drawTo s 0, .drawTo s (-(2 * s))]
  | 8 => [.blankTo 0 0, .drawTo s 0, .drawTo s (-(2 * s)), .drawTo 0 (-(2 * s)),
          .drawTo 0 0, .blankTo 0 (-s), .drawTo s (-s)]
  | 9 => [.blankTo s (-(2 * s)), .drawTo s 0, .drawTo 0 0, .drawTo 0 (-s),
          .drawTo s (-s)]
  | _ => []

/-- Interpretation of a spec stroke as a concrete pen move at origin
`(x, y)` with the given visible color (blanked strokes use color 0). -/
def strokeToMove (x y color : ℤ) : Stroke → Move
  | .blankTo dx dy => ⟨x + dx, y + dy, 0⟩
  | .drawTo dx dy => ⟨x + dx, y + dy, color⟩

/-- One drawing command of the frame-composition section of `main`. -/
inductive Cmd where
  | digit (n x y color size : ℤ) : Cmd
  | square (x y color size : ℤ) : Cmd
deriving DecidableEq, Repr

/-- Execute one composer command. -/
def execCmd (cfg : Config) (s : St) : Cmd → St
  | .digit n x y color size => DrawDigit cfg n x y color size s
  | .square x y color size => DrawSquare cfg x y color size s

/-- The drawing commands issued by one iteration of the outer loop of
`main`, in source order: six digits (tens and units of hour, minute,
second) and four separator squares. C integer division and the `(int)`
casts of `3.5 * size` and `7.5 * size` are `Int.tdiv` (toward zero). -/
def frameCmds (hour min sec xpos ypos color size : ℤ) : List Cmd :=
  [.digit (Int.tdiv hour 10) xpos ypos color size,
   .digit (Int.tmod hour 10) (xpos + 2 * size) ypos color size,
   .digit (Int.tdiv min 10) (xpos + 4 * size) ypos color size,
   .digit (Int.tmod min 10) (xpos + 6 * size) ypos color size,
   .digit (Int.tdiv sec 10) (xpos + 8 * size) ypos color size,
   .digit (Int.tmod sec 10) (xpos + 10 * size) ypos color size,
   .square (xpos + Int.tdiv (7 * size) 2) (ypos - Int.tdiv size 2) color (Int.tdiv size 10),
   .square (xpos + Int.tdiv (7 * size) 2) (ypos - Int.tdiv size 2 - size) color (Int.tdiv size 10),
   .square (xpos + Int.tdiv (15 * size) 2) (ypos - Int.tdiv size 2) color (Int.tdiv size 10),
   .square (xpos + Int.tdiv (15 * size) 2) (ypos - Int.tdiv size 2 - size) color (Int.tdiv size 10)]

/-- One frame rebuild of the outer loop: clear the point buffer
(`num_points = 0`; the pen position and the diagnostic count persist) and
run the composer commands. -/
def buildFrame (cfg : Config) (hour min sec xpos ypos color size : ℤ) (s : St) : St :=
  (frameCmds hour min sec xpos ypos color size).foldl (execCmd cfg)
    { s with vector_list := [] }

/-- Seconds field of `localtime` for a nonnegative epoch time. -/
def tmSec (t : ℤ) : ℤ := t % 60

/-- Minutes field of `localtime` for a nonnegative epoch time. -/
def tmMin (t : ℤ) : ℤ := (t / 60) % 60

/-- Hours field of `localtime` for a nonnegative epoch time. -/
def tmHour (t : ℤ) : ℤ := (t / 3600) % 24

/-- Observable events of the refresh scheduler: a clock read (recording the
observed seconds value), a frame regeneration, a busy poll, a ready poll,
and a device write of the current point buffer. -/
inductive Ev where
  | readSec (sec : ℤ) : Ev
  | regen (sec : ℤ) (frame : List HeliosPoint) : Ev
  | pollBusy : Ev
  | pollReady : Ev
  | write (frame : List HeliosPoint) : Ev
deriving DecidableEq, Repr

/-- Context of a scheduler run: configuration and layout, the simulated
clock (the `i`-th call of `time` returns `s0 + i`, advancing one second per
call), and the device model (`busy k` busy polls precede the `k`-th ready
status). -/
structure SchedCtx where
  cfg : Config
  xpos : ℤ
  ypos : ℤ
  color : ℤ
  size : ℤ
  s0 : ℤ
  busy : ℕ → ℕ

/-- Value of the `r`-th clock read of a run. -/
def readClock (ctx : SchedCtx) (r : ℕ) : ℤ := ctx.s0 + r

/-- The frame rebuild performed by the outer loop at time `t`. -/
def rebuild (ctx : SchedCtx) (t : ℤ) (s : St) : St :=
  buildFrame ctx.cfg (tmHour t) (tmMin t) (tmSec t) ctx.xpos ctx.ypos
    ctx.color ctx.size s

/-- The inner streaming loop of `main`: while the observed seconds value
equals `seconds`, re-read the clock, spin on device status until ready, and
write the current point buffer. `fuel` bounds the number of iterations (the
C loop has no bound; `none` means the fuel ran out). Returns the emitted
events and the final read and wait counters. -/
def innerLoop (ctx : SchedCtx) (seconds : ℤ) (st : St) :
    ℕ → ℤ → ℕ → ℕ → Option (List Ev × ℕ × ℕ)
  | 0, _, _, _ => none
  | fuel + 1, cur, r, w =>
    if tmSec cur = seconds then
      let cur2 := readClock ctx r
      match innerLoop ctx seconds st fuel cur2 (r + 1) (w + 1) with
      | none => none
      | some (evs, r2, w2) =>
          some (Ev.readSec (tmSec cur2) ::
                (List.replicate (ctx.busy w) Ev.pollBusy ++
                 Ev.pollReady :: Ev.write st.vector_list :: evs), r2, w2)
    else some ([], r, w)

/-- The outer loop of `main`, run for `frames` iterations: read the clock,
rebuild the frame, then stream it until the seconds value changes. -/
def outerLoop (ctx : SchedCtx) :
    ℕ → ℕ → ℕ → ℕ → St → Option (List Ev)
  | 0, _, _, _, _ => some []
  | frames + 1, fuel, r, w, st =>
    let t := readClock ctx r
    let st1 := rebuild ctx t st
    match innerLoop ctx (tmSec t) st1 fuel t (r + 1) w with
    | none => none
    | some (evs, r2, w2) =>
      match outerLoop ctx frames fuel r2 w2 st1 with
      | none => none
      | some evs2 =>
          some (Ev.readSec (tmSec t) :: Ev.regen (tmSec t) st1.vector_list ::
                (evs ++ evs2))

/-- A scheduler run over `frames` outer iterations from a fresh state. -/
def runSched (ctx : SchedCtx) (frames fuel : ℕ) : Option (List Ev) :=
  outerLoop ctx frames fuel 0 0 ⟨[], 0, 0, 0⟩

/-- Seconds values observed by clock reads of a trace. -/
def readSecs (evs : List Ev) : List ℤ :=
  evs.filterMap (fun e => match e with | .readSec s => some s | _ => none)

/-- Seconds values at which the trace regenerated the frame. -/
def regenSecs (evs : List Ev) : List ℤ :=
  evs.filterMap (fun e => match e with | .regen s _ => some s | _ => none)

/-- The frames written to the device in a trace. -/
def writtenFrames (evs : List Ev) : List (List HeliosPoint) :=
  evs.filterMap (fun e => match e with | .write f => some f | _ => none)

/-- The frames regenerated in a trace. -/
def regenFrames (evs : List Ev) : List (List HeliosPoint) :=
  evs.filterMap (fun e => match e with | .regen _ f => some f | _ => none)

/-- Scans a trace checking that every device write is immediately preceded
by a ready status: `false` when some write happens without the device
having just reported ready. -/
def writesAfterReady : List Ev → Bool
  | [] => true
  | Ev.pollReady :: Ev.write _ :: rest => writesAfterReady rest
  | Ev.write _ :: _ => false
  | _ :: rest => writesAfterReady rest

/-- The events of one outer-loop iteration under the one-second-per-call
clock: the regenerating read, the rebuild, the inner loop's single
iteration (one read revealing the next second, the ready wait, one write
of the regenerated frame). -/
def iterEvents (ctx : SchedCtx) (r w : ℕ) (st1 : St) : List Ev :=
  Ev.readSec (tmSec (readClock ctx r)) ::
    Ev.regen (tmSec (readClock ctx r)) st1.vector_list ::
    Ev.readSec (tmSec (readClock ctx (r + 1))) ::
    (List.replicate (ctx.busy w) Ev.pollBusy ++
      [Ev.pollReady, Ev.write st1.vector_list])

/-- The expected full event trace of `frames` outer iterations, threading
the buffer/pen state and the read and wait counters. -/
def schedFrames (ctx : SchedCtx) : ℕ → ℕ → ℕ → St → List Ev
  | 0, _, _, _ => []
  | n + 1, r, w, st =>
    iterEvents ctx r w (rebuild ctx (readClock ctx r) st) ++
      schedFrames ctx n (r + 2) (w + 1) (rebuild ctx (readClock ctx r) st)

/-- The expected trace of a scheduler run from a fresh state. -/
def schedTrace (ctx : SchedCtx) (frames : ℕ) : List Ev :=
  schedFrames ctx frames 0 0 ⟨[], 0, 0, 0⟩

/-- The sequence of frame contents regenerated by `frames` outer
iterations (the buffer contents after each rebuild). -/
def framesList (ctx : SchedCtx) : ℕ → ℕ → St → List (List HeliosPoint)
  | 0, _, _ => []
  | n + 1, r, st =>
    (rebuild ctx (readClock ctx r) st).vector_list ::
      framesList ctx n (r + 2) (rebuild ctx (readClock ctx r) st)

/-- Fixture: the default configuration of the source (`divider = 50.0`,
`dwell = 10`, `hidden_dwell = 15`). -/
def cfg0 : Config := ⟨50, by norm_num, 10, 15⟩

/-- Fixture: a fresh state (empty buffer, no diagnostics, pen at the
origin). -/
def st0 : St := ⟨[], 0, 0, 0⟩

/-- Fixture: a scheduler context with the default configuration, a zero
layout, the simulated clock starting at epoch second 0, and a device that
is always immediately ready. -/
def ctx0 : SchedCtx := ⟨cfg0, 0, 0, 1, 0, 0, fun _ => 0⟩

/-! ### Basic lemmas about the point buffer -/

lemma DrawPoint_full {s : St} (x y color : ℤ)
    (h : MAX_POINTS ≤ s.vector_list.length) : DrawPoint x y color s = (s, 0) := by
  simp [DrawPoint, h]

lemma DrawPoint_not_full {s : St} (x y color : ℤ)
    (h : s.vector_list.length < MAX_POINTS) :
    (DrawPoint x y color s).1 =
      { s with vector_list := s.vector_list ++ [storePoint x y color],
               warnings := s.warnings + warnCount x y } := by
  simp [DrawPoint, Nat.not_le.mpr h]

lemma drawAll_nil (s : St) : drawAll [] s = s := rfl

lemma drawAll_cons (p : ℤ × ℤ × ℤ) (ps : List (ℤ × ℤ × ℤ)) (s : St) :
    drawAll (p :: ps) s = drawAll ps (DrawPoint p.1 p.2.1 p.2.2 s).1 := rfl

/-- A run of `DrawPoint` calls that fits in the remaining capacity appends
exactly the corresponding clipped points and accumulates the diagnostics;
the pen is untouched. -/
lemma drawAll_spec (ps : List (ℤ × ℤ × ℤ)) (s : St)
    (h : s.vector_list.length + ps.length ≤ MAX_POINTS) :
    drawAll ps s =
      ⟨s.vector_list ++ ps.map (fun p => storePoint p.1 p.2.1 p.2.2),
       s.warnings + (ps.map (fun p => warnCount p.1 p.2.1)).sum,
       s.x_start, s.y_start⟩ := by
  induction ps generalizing s with
  | nil => simp [drawAll_nil]
  | cons p ps ih =>
    rw [drawAll_cons]
    have hlt : s.vector_list.length < MAX_POINTS := by
      simp at h; omega
    rw [DrawPoint_not_full p.1 p.2.1 p.2.2 hlt, ih]
    · simp [List.append_assoc, Nat.add_assoc]
    · simp at h ⊢
      omega

/-- Appending through `DrawPoint` never pushes the buffer past capacity. -/
lemma DrawPoint_length_le {s : St} (x y color : ℤ)
    (h : s.vector_list.length ≤ MAX_POINTS) :
    (DrawPoint x y color s).1.vector_list.length ≤ MAX_POINTS := by
  by_cases hfull : MAX_POINTS ≤ s.vector_list.length
  · rw [DrawPoint_full x y color hfull]
    exact h
  · push_neg at hfull
    rw [DrawPoint_not_full x y color hfull]
    simp
    omega

lemma drawAll_length_le (ps : List (ℤ × ℤ × ℤ)) (s : St)
    (h : s.vector_list.length ≤ MAX_POINTS) :
    (drawAll ps s).vector_list.length ≤ MAX_POINTS := by
  induction ps generalizing s with
  | nil => simpa [drawAll_nil] using h
  | cons p ps ih =>
    rw [drawAll_cons]
    exact ih _ (DrawPoint_length_le p.1 p.2.1 p.2.2 h)

/-! ### The segment-count search -/

/-- Specification of the fuel-bounded least-witness search: if `p` holds at
some `j` within the fuel, the search returns the least index of `[start, j]`
where `p` holds. -/
lemma leastK_spec (p : ℕ → Bool) (fuel start j : ℕ) (hkj : start ≤ j)
    (hfuel : j < start + fuel) (hj : p j = true) :
    p (leastK p fuel start) = true ∧ start ≤ leastK p fuel start ∧
      leastK p fuel start ≤ j ∧
      ∀ i, start ≤ i → i < leastK p fuel start → p i = false := by
  induction fuel generalizing start with
  | zero => omega
  | succ fuel ih =>
    rw [leastK]
    by_cases hs : p start = true
    · simp [hs]
      refine ⟨hkj, ?_⟩
      intro i h1 h2
      omega
    · have hs' : p start = false := by
        cases hps : p start
        · rfl
        · exact absurd hps hs
      have hsj : start ≠ j := by
        intro e
        rw [e] at hs
        exact hs hj
      have h1 : start + 1 ≤ j := by omega
      have h2 : j < (start + 1) + fuel := by omega
      obtain ⟨c1, c2, c3, c4⟩ := ih (start + 1) h1 h2
      simp [hs]
      refine ⟨c1, by omega, c3, ?_⟩
      intro i hi hi'
      by_cases hstart : i = start
      · rw [hstart]; exact hs'
      · exact c4 i (by omega) hi'

/-- The numerator of the divider is positive. -/
lemma divider_num_pos (cfg : Config) : 1 ≤ cfg.divider.num.toNat := by
  have h : 0 < cfg.divider.num := Rat.num_pos.mpr cfg.divider_pos
  omega

/-- The predicate searched by `numSegments` is monotone in `k`. -/
lemma segPred_mono {N a : ℕ} {j k : ℕ} (hjk : j ≤ k)
    (h : N ≤ j * a * (j * a)) : N ≤ k * a * (k * a) := by
  have hja : j * a ≤ k * a := Nat.mul_le_mul_right a hjk
  calc N ≤ j * a * (j * a) := h
    _ ≤ k * a * (k * a) := Nat.mul_le_mul hja hja

/-- Order characterization of `numSegments`: it is the least `k` with
`(dx^2 + dy^2) * den^2 ≤ (k * num)^2`, i.e. the ceiling of
`sqrt(dx^2+dy^2) / divider`. -/
lemma numSegments_le_iff (cfg : Config) (dx dy : ℤ) (k : ℕ) :
    numSegments cfg dx dy ≤ k ↔
      (dx * dx + dy * dy).toNat * (cfg.divider.den * cfg.divider.den) ≤
        k * cfg.divider.num.toNat * (k * cfg.divider.num.toNat) := by
  set N : ℕ := (dx * dx + dy * dy).toNat with hN
  set a : ℕ := cfg.divider.num.toNat with ha
  set b : ℕ := cfg.divider.den with hb
  have ha1 : 1 ≤ a := divider_num_pos cfg
  have hb1 : 1 ≤ b := cfg.divider.den_pos
  have hwit : N * (b * b) ≤ N * b * a * (N * b * a) := by
    rcases Nat.eq_zero_or_pos N with h0 | h1
    · simp [h0]
    · have hpos : 0 < N * a * a := by positivity
      calc N * (b * b) = N * b * b := by ring
        _ ≤ N * b * b * (N * a * a) := Nat.le_mul_of_pos_right _ hpos
        _ = N * b * a * (N * b * a) := by ring
  have hwb : Nat.ble (N * (b * b)) (N * b * a * (N * b * a)) = true := by
    rw [Nat.ble_eq]; exact hwit
  have hspec := leastK_spec
    (fun k => Nat.ble (N * (b * b)) (k * a * (k * a))) (N * b + 1) 0 (N * b)
    (Nat.zero_le _) (by omega) hwb
  obtain ⟨c1, _, c3, c4⟩ := hspec
  have hL : numSegments cfg dx dy =
      leastK (fun k => Nat.ble (N * (b * b)) (k * a * (k * a))) (N * b + 1) 0 := rfl
  rw [hL]
  set L := leastK (fun k => Nat.ble (N * (b * b)) (k * a * (k * a))) (N * b + 1) 0
  rw [Nat.ble_eq] at c1
  constructor
  · intro hLk
    exact segPred_mono hLk c1
  · intro hk
    by_contra hlt
    push_neg at hlt
    have h5 := c4 k (Nat.zero_le _) hlt
    simp only at h5
    rw [← Nat.ble_eq] at hk
    rw [h5] at hk
    exact absurd hk (by decide)

/-- The segment count is zero exactly when the move has zero length. -/
lemma numSegments_eq_zero_iff (cfg : Config) (dx dy : ℤ) :
    numSegments cfg dx dy = 0 ↔ dx = 0 ∧ dy = 0 := by
  have h := numSegments_le_iff cfg dx dy 0
  simp at h
  rw [h]
  constructor
  · intro h0
    constructor <;> nlinarith [mul_self_nonneg dx, mul_self_nonneg dy]
  · rintro ⟨h1, h2⟩
    simp [h1, h2]

/-- The segment count is exactly the ceiling of the Euclidean length of the
move divided by the divider. -/
lemma numSegments_eq_ceil (cfg : Config) (dx dy : ℤ) :
    numSegments cfg dx dy =
      ⌈Real.sqrt ((dx * dx + dy * dy : ℤ) : ℝ) / ((cfg.divider : ℚ) : ℝ)⌉₊ := by
  set N : ℕ := (dx * dx + dy * dy).toNat with hN
  set a : ℕ := cfg.divider.num.toNat with ha
  set b : ℕ := cfg.divider.den with hb
  have ha1 : 1 ≤ a := divider_num_pos cfg
  have hb1 : 1 ≤ b := cfg.divider.den_pos
  have hnn : (0 : ℤ) ≤ dx * dx + dy * dy :=
    add_nonneg (mul_self_nonneg dx) (mul_self_nonneg dy)
  have hS : ((dx * dx + dy * dy : ℤ) : ℝ) = (N : ℝ) := by
    rw [hN]
    exact_mod_cast (congrArg (fun z : ℤ => (z : ℝ)) (Int.toNat_of_nonneg hnn)).symm
  have hdq : (cfg.divider : ℚ) = (a : ℚ) / (b : ℚ) := by
    have h1 : ((a : ℤ) : ℚ) / ((b : ℤ) : ℚ) = cfg.divider := by
      rw [ha, hb, Int.toNat_of_nonneg (le_of_lt (Rat.num_pos.mpr cfg.divider_pos))]
      exact_mod_cast Rat.num_div_den cfg.divider
    rw [← h1]
    push_cast
    ring
  have hdr : ((cfg.divider : ℚ) : ℝ) = (a : ℝ) / (b : ℝ) := by
    rw [hdq]
    push_cast
    ring
  have hbpos : (0 : ℝ) < (b : ℝ) := by exact_mod_cast hb1
  have hdpos : (0 : ℝ) < (a : ℝ) / (b : ℝ) := by positivity
  have hiff : ∀ k : ℕ,
      (N * (b * b) ≤ k * a * (k * a)) ↔
        Real.sqrt ((dx * dx + dy * dy : ℤ) : ℝ) / ((cfg.divider : ℚ) : ℝ) ≤ (k : ℝ) := by
    intro k
    rw [hdr, hS, div_le_iff₀ hdpos, Real.sqrt_le_iff]
    have hknn : (0 : ℝ) ≤ (k : ℝ) * ((a : ℝ) / (b : ℝ)) := by positivity
    simp only [hknn, true_and]
    rw [mul_pow, div_pow, ← mul_div_assoc, le_div_iff₀ (by positivity : (0:ℝ) < (b:ℝ)^2)]
    constructor
    · intro h
      have h' : ((N * (b * b) : ℕ) : ℝ) ≤ ((k * a * (k * a) : ℕ) : ℝ) := by
        exact_mod_cast h
      push_cast at h'
      nlinarith
    · intro h
      have h' : ((N * (b * b) : ℕ) : ℝ) ≤ ((k * a * (k * a) : ℕ) : ℝ) := by
        push_cast
        nlinarith
      exact_mod_cast h'
  apply le_antisymm
  · rw [numSegments_le_iff cfg dx dy, ← hN, ← ha, ← hb, hiff]
    exact Nat.le_ceil _
  · rw [Nat.ceil_le, ← hiff]
    have h := (numSegments_le_iff cfg dx dy (numSegments cfg dx dy)).mp le_rfl
    rw [← hN, ← ha, ← hb] at h
    exact h

/-! ### Characterization of DrawLineTo -/

lemma interpTargets_length (xs ys x y : ℤ) (n : ℕ) :
    (interpTargets xs ys x y n).length = n := by
  simp [interpTargets]

/-- At the final loop index the interpolated coordinate is exactly the
destination coordinate. -/
lemma interpCoord_self (x0 x1 : ℤ) (n : ℕ) (hn : 0 < n) :
    interpCoord x0 x1 n n = x1 := by
  unfold interpCoord
  have h1 : x0 * (n : ℤ) + (x1 - x0) * (n : ℤ) = x1 * (n : ℤ) := by ring
  have h2 : (n : ℤ) ≠ 0 := by exact_mod_cast hn.ne'
  rw [h1, Int.mul_tdiv_cancel _ h2]

/-- The last point of a nonempty interpolation run is the destination. -/
lemma interpTargets_getLast (xs ys x y : ℤ) (n : ℕ) (hn : 0 < n) :
    (interpTargets xs ys x y n).getLast? = some (x, y) := by
  obtain ⟨m, rfl⟩ : ∃ m, n = m + 1 := ⟨n - 1, by omega⟩
  unfold interpTargets
  rw [List.range_succ, List.map_append]
  rw [List.getLast?_append]
  simp [interpCoord_self _ _ _ hn]

/-- A blanked move appends exactly `hidden_dwell` copies of the clipped
destination and moves the pen there. -/
lemma DrawLineTo_blank (cfg : Config) (x y : ℤ) (s : St)
    (h : s.vector_list.length + cfg.hidden_dwell ≤ MAX_POINTS) :
    DrawLineTo cfg x y 0 s =
      ⟨s.vector_list ++ List.replicate cfg.hidden_dwell (storePoint x y 0),
       s.warnings + cfg.hidden_dwell * warnCount x y, x, y⟩ := by
  unfold DrawLineTo
  simp only [lt_irrefl, if_false, if_pos rfl, if_true, eq_self_iff_true]
  rw [drawAll_spec _ _ (by simpa using h)]
  simp [List.map_replicate, List.sum_replicate, smul_eq_mul]

/-- A visible move appends exactly `numSegments` interpolated points
followed by `dwell` copies of the clipped destination, and moves the pen to
the destination. -/
lemma DrawLineTo_visible (cfg : Config) (x y color : ℤ) (s : St) (hc : 0 < color)
    (h : s.vector_list.length
          + numSegments cfg (x - s.x_start) (y - s.y_start) + cfg.dwell ≤ MAX_POINTS) :
    DrawLineTo cfg x y color s =
      ⟨s.vector_list
         ++ (interpTargets s.x_start s.y_start x y
              (numSegments cfg (x - s.x_start) (y - s.y_start))).map
              (fun p => storePoint p.1 p.2 color)
         ++ List.replicate cfg.dwell (storePoint x y color),
       s.warnings
         + ((interpTargets s.x_start s.y_start x y
              (numSegments cfg (x - s.x_start) (y - s.y_start))).map
              (fun p => warnCount p.1 p.2)).sum
         + cfg.dwell * warnCount x y, x, y⟩ := by
  have hc0 : ¬ (color = 0) := by omega
  unfold DrawLineTo
  simp only [if_pos hc, if_neg hc0]
  set n := numSegments cfg (x - s.x_start) (y - s.y_start) with hn
  have hlen1 : s.vector_list.length
      + ((interpTargets s.x_start s.y_start x y n).map
          (fun p => (p.1, p.2, color))).length ≤ MAX_POINTS := by
    rw [List.length_map, interpTargets_length]
    omega
  rw [drawAll_spec _ _ hlen1]
  have hlen2 : (s.vector_list ++ ((interpTargets s.x_start s.y_start x y n).map
        (fun p => (p.1, p.2, color))).map
          (fun p => storePoint p.1 p.2.1 p.2.2)).length
      + (List.replicate cfg.dwell (x, y, color)).length ≤ MAX_POINTS := by
    simp [interpTargets_length]
    omega
  rw [drawAll_spec _ _ hlen2]
  simp [List.map_map, Function.comp, List.map_replicate, List.sum_replicate,
    smul_eq_mul, List.append_assoc, Nat.add_assoc]
  rfl

/-! ### Pen-position independence of blanked moves -/

lemma execMoves_nil (cfg : Config) (s : St) : execMoves cfg [] s = s := rfl

lemma execMoves_cons (cfg : Config) (m : Move) (ms : List Move) (s : St) :
    execMoves cfg (m :: ms) s = execMoves cfg ms (DrawLineTo cfg m.x m.y m.color s) := rfl

/-- The buffer and diagnostic evolution of `DrawPoint` depends only on the
buffer and diagnostic components of the state, never on the pen. -/
lemma DrawPoint_congr (x y color : ℤ) (s s' : St)
    (hv : s.vector_list = s'.vector_list) (hw : s.warnings = s'.warnings) :
    (DrawPoint x y color s).1.vector_list = (DrawPoint x y color s').1.vector_list ∧
      (DrawPoint x y color s).1.warnings = (DrawPoint x y color s').1.warnings := by
  unfold DrawPoint
  rw [hv, hw]
  by_cases hfull : MAX_POINTS ≤ s'.vector_list.length
  · simp [hfull, hv, hw]
  · simp [hfull, hv, hw]

lemma drawAll_congr (args : List (ℤ × ℤ × ℤ)) (s s' : St)
    (hv : s.vector_list = s'.vector_list) (hw : s.warnings = s'.warnings) :
    (drawAll args s).vector_list = (drawAll args s').vector_list ∧
      (drawAll args s).warnings = (drawAll args s').warnings := by
  induction args generalizing s s' with
  | nil => exact ⟨hv, hw⟩
  | cons p ps ih =>
    rw [drawAll_cons, drawAll_cons]
    obtain ⟨h1, h2⟩ := DrawPoint_congr p.1 p.2.1 p.2.2 s s' hv hw
    exact ih _ _ h1 h2

/-- A blanked `DrawLineTo` produces the same final state from any two
states that agree on buffer and diagnostics: its emitted points (only the
destination dwell) do not depend on the pen position. -/
lemma DrawLineTo_zero_congr (cfg : Config) (x y : ℤ) (s s' : St)
    (hv : s.vector_list = s'.vector_list) (hw : s.warnings = s'.warnings) :
    DrawLineTo cfg x y 0 s = DrawLineTo cfg x y 0 s' := by
  unfold DrawLineTo
  simp only [lt_irrefl, if_false, if_pos rfl, if_true, eq_self_iff_true]
  obtain ⟨h1, h2⟩ := drawAll_congr (List.replicate cfg.hidden_dwell (x, y, 0)) s s' hv hw
  cases hcase : drawAll (List.replicate cfg.hidden_dwell (x, y, 0)) s with
  | mk v w xs ys =>
    cases hcase' : drawAll (List.replicate cfg.hidden_dwell (x, y, 0)) s' with
    | mk v' w' xs' ys' =>
      rw [hcase, hcase'] at h1 h2
      simp at h1 h2
      simp [h1, h2]

/-! ### Clipping helper lemmas -/

lemma clipCoord_fst (v : ℤ) :
    (clipCoord v).1 = if 4095 < v then 4095 else if v < 0 then 0 else v := by
  unfold clipCoord
  split_ifs <;> rfl

lemma clipCoord_snd (v : ℤ) : (clipCoord v).2 = if 4095 < v then 1 else 0 := by
  unfold clipCoord
  split_ifs <;> rfl

/-- A point whose coordinates are already in device range is stored
verbatim. -/
lemma storePoint_in_range (x y color : ℤ) (hx1 : 0 ≤ x) (hx2 : x ≤ 4095)
    (hy1 : 0 ≤ y) (hy2 : y ≤ 4095) :
    storePoint x y color =
      ⟨x, y, (colorRGB color).1, (colorRGB color).2.1, (colorRGB color).2.2, 255⟩ := by
  unfold storePoint
  rw [clipCoord_fst, clipCoord_fst]
  rw [if_neg (by omega), if_neg (by omega), if_neg (by omega), if_neg (by omega)]

/-! ### Claim theorems -/

/-- C4: over any sequence of append operations the point-buffer length
never exceeds `MAX_POINTS`, and an append attempted at capacity leaves the
state unchanged (returning 0), with no out-of-bounds effect. -/
theorem c4_buffer_capacity_bound (args : List (ℤ × ℤ × ℤ)) (s : St)
    (h : s.vector_list.length ≤ MAX_POINTS) :
    (drawAll args s).vector_list.length ≤ MAX_POINTS ∧
      (∀ x y color, MAX_POINTS ≤ s.vector_list.length →
        DrawPoint x y color s = (s, 0)) :=
  ⟨drawAll_length_le args s h, fun x y color hf => DrawPoint_full x y color hf⟩

/-- Witness for C4 at a concrete input. -/
theorem c4_buffer_capacity_bound_witness :
    (drawAll [((1 : ℤ), (2 : ℤ), (1 : ℤ))] st0).vector_list.length ≤ MAX_POINTS ∧
      (∀ x y color, MAX_POINTS ≤ st0.vector_list.length →
        DrawPoint x y color st0 = (st0, 0)) :=
  c4_buffer_capacity_bound [((1 : ℤ), (2 : ℤ), (1 : ℤ))] st0 (by decide)

/-- C8: after any `DrawLineTo` call the pen state is exactly the requested
destination, for every color (blank included) and also for out-of-range
destinations (the pen is not clipped); the read-only configuration is not
part of the mutable state and cannot be modified. -/
theorem c8_pen_follows_destination (cfg : Config) (x y color : ℤ) (s : St) :
    (DrawLineTo cfg x y color s).x_start = x ∧
      (DrawLineTo cfg x y color s).y_start = y := by
  unfold DrawLineTo
  exact ⟨rfl, rfl⟩

/-- C3 (corrected): when the buffer is not full, a stored coordinate above
4095 is clamped to 4095 and a negative one to 0; a diagnostic is emitted
exactly once per coordinate that exceeds 4095 — and, contrary to the claim,
none at all for a negative coordinate — so one call emits 0, 1 or 2
diagnostics. -/
theorem c3_clipping_amended (x y color : ℤ) (s : St)
    (h : s.vector_list.length < MAX_POINTS) :
    (DrawPoint x y color s).1.vector_list =
      s.vector_list ++
        [⟨if 4095 < x then 4095 else if x < 0 then 0 else x,
          if 4095 < y then 4095 else if y < 0 then 0 else y,
          (colorRGB color).1, (colorRGB color).2.1, (colorRGB color).2.2, 255⟩] ∧
      (DrawPoint x y color s).1.warnings =
        s.warnings + ((if 4095 < x then 1 else 0) + (if 4095 < y then 1 else 0)) := by
  rw [DrawPoint_not_full x y color h]
  constructor
  · simp [storePoint, clipCoord_fst]
  · simp [warnCount, clipCoord_snd]

/-- Witness for C3 (amended) at a concrete input. -/
theorem c3_clipping_amended_witness :
    (DrawPoint 5000 (-3) 1 st0).1.vector_list =
      st0.vector_list ++
        [⟨if 4095 < (5000 : ℤ) then 4095 else if (5000 : ℤ) < 0 then 0 else 5000,
          if 4095 < (-3 : ℤ) then 4095 else if (-3 : ℤ) < 0 then 0 else -3,
          (colorRGB 1).1, (colorRGB 1).2.1, (colorRGB 1).2.2, 255⟩] ∧
      (DrawPoint 5000 (-3) 1 st0).1.warnings =
        st0.warnings + ((if 4095 < (5000 : ℤ) then 1 else 0) +
          (if 4095 < (-3 : ℤ) then 1 else 0)) :=
  c3_clipping_amended 5000 (-3) 1 st0 (by decide)

/-- C3 counterexample to the claim as stated: the call `DrawPoint (-1) 0 1`
has an offending (negative) input coordinate, which is clamped to 0, yet
zero diagnostics are observable; and `DrawPoint 5000 5000 1` is one
offending call that emits two diagnostics, not one. -/
theorem c3_clipping_counterexample :
    (DrawPoint (-1) 0 1 st0).1.vector_list = [⟨0, 0, 255, 0, 0, 255⟩] ∧
      (DrawPoint (-1) 0 1 st0).1.warnings = 0 ∧
      (DrawPoint 5000 5000 1 st0).1.warnings = 2 := by
  decide

/-- C10: for a digit selector outside 0–9, `DrawDigit` hits the `default`
branch of the `switch` and is a complete no-op: the whole state (buffer,
diagnostics, pen) is unchanged. -/
theorem c10_digit_out_of_range_noop (cfg : Config) (n x y color size : ℤ)
    (s : St) (h : n < 0 ∨ 9 < n) : DrawDigit cfg n x y color size s = s := by
  have hm : digitMoves n x y color size = [] := by
    unfold digitMoves
    rw [if_neg (by omega : ¬ n = 0), if_neg (by omega : ¬ n = 1),
      if_neg (by omega : ¬ n = 2), if_neg (by omega : ¬ n = 3),
      if_neg (by omega : ¬ n = 4), if_neg (by omega : ¬ n = 5),
      if_neg (by omega : ¬ n = 6), if_neg (by omega : ¬ n = 7),
      if_neg (by omega : ¬ n = 8), if_neg (by omega : ¬ n = 9)]
  unfold DrawDigit
  rw [hm]
  rfl

/-- Witness for C10 at the concrete digit 10. -/
theorem c10_digit_out_of_range_noop_witness :
    DrawDigit cfg0 10 1 2 3 4 st0 = st0 :=
  c10_digit_out_of_range_noop cfg0 10 1 2 3 4 st0 (by decide)

/-- C2: when the buffer does not reach capacity during the call, a blanked
move emits zero intermediate points and exactly `hidden_dwell` repeated
points at the (in-range) destination, and a visible move emits its
intermediate points followed by exactly `dwell` repeated points at the
destination. -/
theorem c2_dwell_counts (cfg : Config) (x y color : ℤ) (s : St)
    (hx1 : 0 ≤ x) (hx2 : x ≤ 4095) (hy1 : 0 ≤ y) (hy2 : y ≤ 4095) :
    (color = 0 →
      s.vector_list.length + cfg.hidden_dwell ≤ MAX_POINTS →
      (DrawLineTo cfg x y color s).vector_list =
        s.vector_list ++ List.replicate cfg.hidden_dwell ⟨x, y, 0, 0, 0, 255⟩) ∧
    (0 < color →
      s.vector_list.length
          + numSegments cfg (x - s.x_start) (y - s.y_start) + cfg.dwell ≤ MAX_POINTS →
      (DrawLineTo cfg x y color s).vector_list =
        s.vector_list
          ++ (interpTargets s.x_start s.y_start x y
                (numSegments cfg (x - s.x_start) (y - s.y_start))).map
                (fun p => storePoint p.1 p.2 color)
          ++ List.replicate cfg.dwell
              ⟨x, y, (colorRGB color).1, (colorRGB color).2.1,
               (colorRGB color).2.2, 255⟩) := by
  constructor
  · intro hc hroom
    subst hc
    rw [DrawLineTo_blank cfg x y s hroom]
    rw [storePoint_in_range x y 0 hx1 hx2 hy1 hy2]
    rfl
  · intro hc hroom
    rw [DrawLineTo_visible cfg x y color s hc hroom]
    rw [storePoint_in_range x y color hx1 hx2 hy1 hy2]

/-- Witness for C2 at concrete inputs (both the blank and the visible
branch). -/
theorem c2_dwell_counts_witness :
    ((0 : ℤ) = 0 →
      st0.vector_list.length + cfg0.hidden_dwell ≤ MAX_POINTS →
      (DrawLineTo cfg0 100 200 0 st0).vector_list =
        st0.vector_list ++ List.replicate cfg0.hidden_dwell ⟨100, 200, 0, 0, 0, 255⟩) ∧
    ((0 : ℤ) < 0 →
      st0.vector_list.length
          + numSegments cfg0 (100 - st0.x_start) (200 - st0.y_start) + cfg0.dwell ≤ MAX_POINTS →
      (DrawLineTo cfg0 100 200 0 st0).vector_list =
        st0.vector_list
          ++ (interpTargets st0.x_start st0.y_start 100 200
                (numSegments cfg0 (100 - st0.x_start) (200 - st0.y_start))).map
                (fun p => storePoint p.1 p.2 0)
          ++ List.replicate cfg0.dwell
              ⟨100, 200, (colorRGB 0).1, (colorRGB 0).2.1, (colorRGB 0).2.2, 255⟩) :=
  c2_dwell_counts cfg0 100 200 0 st0 (by decide) (by decide) (by decide) (by decide)

/-- C1 counterexample to the claim as stated: for a zero-length visible
move (destination equal to the pen position) the interpolator emits zero
intermediate points, not the claimed minimum of one segment — the whole
output of the call is the 10 dwell repeats. -/
theorem c1_interp_count_counterexample :
    numSegments cfg0 (0 - st0.x_start) (0 - st0.y_start) = 0 ∧
      (DrawLineTo cfg0 0 0 1 st0).vector_list =
        List.replicate 10 ⟨0, 0, 255, 0, 0, 255⟩ := by
  decide

/-- C1 (corrected): for a visible move that fits in the buffer, the number
of intermediate points emitted equals exactly `ceil(d / divider)` where `d`
is the Euclidean distance from the pen position to the destination — with
no minimum: a zero-length move emits zero intermediate points. When at
least one intermediate point is emitted, the last one is exactly the
(in-range) destination. -/
theorem c1_interp_count_amended (cfg : Config) (x y color : ℤ) (s : St)
    (hc : 0 < color)
    (hroom : s.vector_list.length
        + numSegments cfg (x - s.x_start) (y - s.y_start) + cfg.dwell ≤ MAX_POINTS)
    (hx1 : 0 ≤ x) (hx2 : x ≤ 4095) (hy1 : 0 ≤ y) (hy2 : y ≤ 4095) :
    numSegments cfg (x - s.x_start) (y - s.y_start) =
        ⌈Real.sqrt (((x - s.x_start) * (x - s.x_start)
            + (y - s.y_start) * (y - s.y_start) : ℤ) : ℝ) / ((cfg.divider : ℚ) : ℝ)⌉₊ ∧
      (DrawLineTo cfg x y color s).vector_list =
        s.vector_list
          ++ (interpTargets s.x_start s.y_start x y
                (numSegments cfg (x - s.x_start) (y - s.y_start))).map
                (fun p => storePoint p.1 p.2 color)
          ++ List.replicate cfg.dwell (storePoint x y color) ∧
      (interpTargets s.x_start s.y_start x y
          (numSegments cfg (x - s.x_start) (y - s.y_start))).length =
        numSegments cfg (x - s.x_start) (y - s.y_start) ∧
      (0 < numSegments cfg (x - s.x_start) (y - s.y_start) →
        ((interpTargets s.x_start s.y_start x y
            (numSegments cfg (x - s.x_start) (y - s.y_start))).map
            (fun p => storePoint p.1 p.2 color)).getLast? =
          some ⟨x, y, (colorRGB color).1, (colorRGB color).2.1,
                (colorRGB color).2.2, 255⟩) := by
  refine ⟨numSegments_eq_ceil cfg _ _, ?_, interpTargets_length _ _ _ _ _, ?_⟩
  · have h := DrawLineTo_visible cfg x y color s hc hroom
    rw [h]
  · intro hn
    rw [List.getLast?_map, interpTargets_getLast _ _ _ _ _ hn]
    simp only [Option.map_some']
    rw [storePoint_in_range x y color hx1 hx2 hy1 hy2]

/-- Witness for C1 (amended) at a concrete input: a move of length 50 with
divider 50 yields exactly one intermediate point, the destination. -/
theorem c1_interp_count_amended_witness :
    numSegments cfg0 (30 - st0.x_start) (40 - st0.y_start) =
        ⌈Real.sqrt (((30 - st0.x_start) * (30 - st0.x_start)
            + (40 - st0.y_start) * (40 - st0.y_start) : ℤ) : ℝ) / ((cfg0.divider : ℚ) : ℝ)⌉₊ ∧
      (DrawLineTo cfg0 30 40 1 st0).vector_list =
        st0.vector_list
          ++ (interpTargets st0.x_start st0.y_start 30 40
                (numSegments cfg0 (30 - st0.x_start) (40 - st0.y_start))).map
                (fun p => storePoint p.1 p.2 1)
          ++ List.replicate cfg0.dwell (storePoint 30 40 1) ∧
      (interpTargets st0.x_start st0.y_start 30 40
          (numSegments cfg0 (30 - st0.x_start) (40 - st0.y_start))).length =
        numSegments cfg0 (30 - st0.x_start) (40 - st0.y_start) ∧
      (0 < numSegments cfg0 (30 - st0.x_start) (40 - st0.y_start) →
        ((interpTargets st0.x_start st0.y_start 30 40
            (numSegments cfg0 (30 - st0.x_start) (40 - st0.y_start))).map
            (fun p => storePoint p.1 p.2 1)).getLast? =
          some ⟨30, 40, (colorRGB 1).1, (colorRGB 1).2.1, (colorRGB 1).2.2, 255⟩) :=
  c1_interp_count_amended cfg0 30 40 1 st0 (by decide) (by decide)
    (by decide) (by decide) (by decide) (by decide)

/-- Running a move list whose first move (if any) is blanked, from a fresh
buffer, produces a point sequence independent of the initial pen
position. -/
lemma execMoves_fresh (cfg : Config) (ms : List Move) (px py qx qy : ℤ)
    (h : ms = [] ∨ ∃ m tl, ms = m :: tl ∧ m.color = 0) :
    (execMoves cfg ms ⟨[], 0, px, py⟩).vector_list =
      (execMoves cfg ms ⟨[], 0, qx, qy⟩).vector_list := by
  rcases h with rfl | ⟨m, tl, rfl, hm⟩
  · rfl
  · rw [execMoves_cons, execMoves_cons]
    have heq : DrawLineTo cfg m.x m.y m.color ⟨[], 0, px, py⟩ =
        DrawLineTo cfg m.x m.y m.color ⟨[], 0, qx, qy⟩ := by
      rw [hm]
      exact DrawLineTo_zero_congr cfg m.x m.y _ _ rfl rfl
    rw [heq]

/-- C7: drawing the same digit at the same origin and size into fresh
(cleared) buffers yields identical point sequences regardless of the pen
position inherited from before, because every digit program begins with a
blanked move whose emitted points are independent of the starting pen
position. Holds for every digit selector and every color. -/
theorem c7_glyph_pen_independence (cfg : Config) (d x y color size px py qx qy : ℤ) :
    (DrawDigit cfg d x y color size ⟨[], 0, px, py⟩).vector_list =
      (DrawDigit cfg d x y color size ⟨[], 0, qx, qy⟩).vector_list := by
  have h : digitMoves d x y color size = [] ∨
      ∃ m tl, digitMoves d x y color size = m :: tl ∧ m.color = 0 := by
    by_cases h0 : d = 0
    · rw [digitMoves, if_pos h0]
      right
      exact ⟨_, _, rfl, rfl⟩
    by_cases h1 : d = 1
    · rw [digitMoves, if_neg h0, if_pos h1]
      right
      exact ⟨_, _, rfl, rfl⟩
    by_cases h2 : d = 2
    · rw [digitMoves, if_neg h0, if_neg h1, if_pos h2]
      right
      exact ⟨_, _, rfl, rfl⟩
    by_cases h3 : d = 3
    · rw [digitMoves, if_neg h0, if_neg h1, if_neg h2, if_pos h3]
      right
      exact ⟨_, _, rfl, rfl⟩
    by_cases h4 : d = 4
    · rw [digitMoves, if_neg h0, if_neg h1, if_neg h2, if_neg h3, if_pos h4]
      right
      exact ⟨_, _, rfl, rfl⟩
    by_cases h5 : d = 5
    · rw [digitMoves, if_neg h0, if_neg h1, if_neg h2, if_neg h3, if_neg h4, if_pos h5]
      right
      exact ⟨_, _, rfl, rfl⟩
    by_cases h6 : d = 6
    · rw [digitMoves, if_neg h0, if_neg h1, if_neg h2, if_neg h3, if_neg h4, if_neg h5, if_pos h6]
      right
      exact ⟨_, _, rfl, rfl⟩
    by_cases h7 : d = 7
    · rw [digitMoves, if_neg h0, if_neg h1, if_neg h2, if_neg h3, if_neg h4, if_neg h5, if_neg h6, if_pos h7]
      right
      exact ⟨_, _, rfl, rfl⟩
    by_cases h8 : d = 8
    · rw [digitMoves, if_neg h0, if_neg h1, if_neg h2, if_neg h3, if_neg h4, if_neg h5, if_neg h6, if_neg h7, if_pos h8]
      right
      exact ⟨_, _, rfl, rfl⟩
    by_cases h9 : d = 9
    · rw [digitMoves, if_neg h0, if_neg h1, if_neg h2, if_neg h3, if_neg h4, if_neg h5, if_neg h6, if_neg h7, if_neg h8, if_pos h9]
      right
      exact ⟨_, _, rfl, rfl⟩
    rw [digitMoves, if_neg h0, if_neg h1, if_neg h2, if_neg h3, if_neg h4, if_neg h5, if_neg h6, if_neg h7, if_neg h8, if_neg h9]
    left
    rfl
  unfold DrawDigit
  exact execMoves_fresh cfg _ px py qx qy h

/-- C5: for every digit 0–9, the pen moves issued by the digit-drawing
routine are exactly the authored stroke table of the specification,
translated to the origin and tagged blank or visible as listed. -/
theorem c5_digit_stroke_table (d : ℤ) (hd1 : 0 ≤ d) (hd2 : d ≤ 9)
    (x y color size : ℤ) :
    digitMoves d x y color size =
      (specDigitStrokes d.toNat size).map (strokeToMove x y color) := by
  interval_cases d <;>
    norm_num [digitMoves, specDigitStrokes, strokeToMove, zeroMoves, oneMoves,
      twoMoves, threeMoves, fourMoves, fiveMoves, sixMoves, sevenMoves,
      eightMoves, nineMoves, Move.mk.injEq, sub_eq_add_neg, Int.toNat]

/-- Witness for C5 at the concrete digit 9 (the digit spelled out in the
claim). -/
theorem c5_digit_stroke_table_witness :
    digitMoves 9 0 0 1 10 =
      (specDigitStrokes (9 : ℤ).toNat 10).map (strokeToMove 0 0 1) :=
  c5_digit_stroke_table 9 (by decide) (by decide) 0 0 1 10

/-- C6: one frame rebuild issues exactly six digit draws — the tens and
units of hour, minute and second, in that order — at horizontal offsets
`0, 2s, 4s, 6s, 8s, 10s` from the layout origin, all at the same vertical
origin, followed by two pairs of colon-marker squares (at horizontal
positions `3.5s` and `7.5s`, vertically `s/2` below the origin and one cell
lower); and `buildFrame` executes exactly these commands, in order, on the
cleared buffer. -/
theorem c6_frame_layout (cfg : Config) (hour min sec xpos ypos color size : ℤ)
    (s : St) (hh : 0 ≤ hour) (hm : 0 ≤ min) (hs : 0 ≤ sec) :
    frameCmds hour min sec xpos ypos color size =
      [Cmd.digit (hour / 10) (xpos + 0 * size) ypos color size,
       Cmd.digit (hour % 10) (xpos + 2 * size) ypos color size,
       Cmd.digit (min / 10) (xpos + 4 * size) ypos color size,
       Cmd.digit (min % 10) (xpos + 6 * size) ypos color size,
       Cmd.digit (sec / 10) (xpos + 8 * size) ypos color size,
       Cmd.digit (sec % 10) (xpos + 10 * size) ypos color size,
       Cmd.square (xpos + Int.tdiv (7 * size) 2) (ypos - Int.tdiv size 2)
         color (Int.tdiv size 10),
       Cmd.square (xpos + Int.tdiv (7 * size) 2) (ypos - Int.tdiv size 2 - size)
         color (Int.tdiv size 10),
       Cmd.square (xpos + Int.tdiv (15 * size) 2) (ypos - Int.tdiv size 2)
         color (Int.tdiv size 10),
       Cmd.square (xpos + Int.tdiv (15 * size) 2) (ypos - Int.tdiv size 2 - size)
         color (Int.tdiv size 10)] ∧
    buildFrame cfg hour min sec xpos ypos color size s =
      DrawSquare cfg (xpos + Int.tdiv (15 * size) 2) (ypos - Int.tdiv size 2 - size)
        color (Int.tdiv size 10)
        (DrawSquare cfg (xpos + Int.tdiv (15 * size) 2) (ypos - Int.tdiv size 2)
          color (Int.tdiv size 10)
          (DrawSquare cfg (xpos + Int.tdiv (7 * size) 2) (ypos - Int.tdiv size 2 - size)
            color (Int.tdiv size 10)
            (DrawSquare cfg (xpos + Int.tdiv (7 * size) 2) (ypos - Int.tdiv size 2)
              color (Int.tdiv size 10)
              (DrawDigit cfg (sec % 10) (xpos + 10 * size) ypos color size
                (DrawDigit cfg (sec / 10) (xpos + 8 * size) ypos color size
                  (DrawDigit cfg (min % 10) (xpos + 6 * size) ypos color size
                    (DrawDigit cfg (min / 10) (xpos + 4 * size) ypos color size
                      (DrawDigit cfg (hour % 10) (xpos + 2 * size) ypos color size
                        (DrawDigit cfg (hour / 10) (xpos + 0 * size) ypos color size
                          { s with vector_list := [] }))))))))) := by
  have e1 : Int.tdiv hour 10 = hour / 10 := Int.tdiv_eq_ediv hh (by norm_num)
  have e2 : Int.tmod hour 10 = hour % 10 := Int.tmod_eq_emod hh (by norm_num)
  have e3 : Int.tdiv min 10 = min / 10 := Int.tdiv_eq_ediv hm (by norm_num)
  have e4 : Int.tmod min 10 = min % 10 := Int.tmod_eq_emod hm (by norm_num)
  have e5 : Int.tdiv sec 10 = sec / 10 := Int.tdiv_eq_ediv hs (by norm_num)
  have e6 : Int.tmod sec 10 = sec % 10 := Int.tmod_eq_emod hs (by norm_num)
  constructor
  · rw [frameCmds, e1, e2, e3, e4, e5, e6]
    norm_num
  · rw [buildFrame, frameCmds, e1, e2, e3, e4, e5, e6]
    simp only [List.foldl, execCmd]
    norm_num

/-- Witness for C6 at the concrete reading 03:05:09 with the layout of the
specification scenario (origin (0, 2000), size 250, red). -/
theorem c6_frame_layout_witness :
    frameCmds 3 5 9 0 2000 1 250 =
      [Cmd.digit ((3 : ℤ) / 10) (0 + 0 * 250) 2000 1 250,
       Cmd.digit ((3 : ℤ) % 10) (0 + 2 * 250) 2000 1 250,
       Cmd.digit ((5 : ℤ) / 10) (0 + 4 * 250) 2000 1 250,
       Cmd.digit ((5 : ℤ) % 10) (0 + 6 * 250) 2000 1 250,
       Cmd.digit ((9 : ℤ) / 10) (0 + 8 * 250) 2000 1 250,
       Cmd.digit ((9 : ℤ) % 10) (0 + 10 * 250) 2000 1 250,
       Cmd.square (0 + Int.tdiv (7 * 250) 2) (2000 - Int.tdiv 250 2) 1 (Int.tdiv 250 10),
       Cmd.square (0 + Int.tdiv (7 * 250) 2) (2000 - Int.tdiv 250 2 - 250) 1 (Int.tdiv 250 10),
       Cmd.square (0 + Int.tdiv (15 * 250) 2) (2000 - Int.tdiv 250 2) 1 (Int.tdiv 250 10),
       Cmd.square (0 + Int.tdiv (15 * 250) 2) (2000 - Int.tdiv 250 2 - 250) 1 (Int.tdiv 250 10)] ∧
    buildFrame cfg0 3 5 9 0 2000 1 250 st0 =
      DrawSquare cfg0 (0 + Int.tdiv (15 * 250) 2) (2000 - Int.tdiv 250 2 - 250) 1 (Int.tdiv 250 10)
        (DrawSquare cfg0 (0 + Int.tdiv (15 * 250) 2) (2000 - Int.tdiv 250 2) 1 (Int.tdiv 250 10)
          (DrawSquare cfg0 (0 + Int.tdiv (7 * 250) 2) (2000 - Int.tdiv 250 2 - 250) 1 (Int.tdiv 250 10)
            (DrawSquare cfg0 (0 + Int.tdiv (7 * 250) 2) (2000 - Int.tdiv 250 2) 1 (Int.tdiv 250 10)
              (DrawDigit cfg0 ((9 : ℤ) % 10) (0 + 10 * 250) 2000 1 250
                (DrawDigit cfg0 ((9 : ℤ) / 10) (0 + 8 * 250) 2000 1 250
                  (DrawDigit cfg0 ((5 : ℤ) % 10) (0 + 6 * 250) 2000 1 250
                    (DrawDigit cfg0 ((5 : ℤ) / 10) (0 + 4 * 250) 2000 1 250
                      (DrawDigit cfg0 ((3 : ℤ) % 10) (0 + 2 * 250) 2000 1 250
                        (DrawDigit cfg0 ((3 : ℤ) / 10) (0 + 0 * 250) 2000 1 250
                          { st0 with vector_list := [] }))))))))) :=
  c6_frame_layout cfg0 3 5 9 0 2000 1 250 st0 (by decide) (by decide) (by decide)

/-! ### Scheduler trace lemmas -/

lemma readClock_succ (ctx : SchedCtx) (r : ℕ) :
    readClock ctx (r + 1) = readClock ctx r + 1 := by
  unfold readClock
  push_cast
  ring

lemma tmSec_succ_ne (t : ℤ) : tmSec (t + 1) ≠ tmSec t := by
  unfold tmSec
  omega

/-- Under the one-second-per-call clock the inner loop executes exactly one
iteration: one clock read (revealing the next second), the device wait, and
one write of the current buffer. -/
lemma innerLoop_step (ctx : SchedCtx) (st : St) (fuel r w : ℕ) (hfuel : 2 ≤ fuel) :
    innerLoop ctx (tmSec (readClock ctx r)) st fuel (readClock ctx r) (r + 1) w =
      some (Ev.readSec (tmSec (readClock ctx (r + 1))) ::
            (List.replicate (ctx.busy w) Ev.pollBusy ++
              [Ev.pollReady, Ev.write st.vector_list]), r + 2, w + 1) := by
  obtain ⟨f, rfl⟩ : ∃ f, fuel = f + 1 + 1 := ⟨fuel - 2, by omega⟩
  have hne : tmSec (readClock ctx (r + 1)) ≠ tmSec (readClock ctx r) := by
    rw [readClock_succ]
    exact tmSec_succ_ne _
  simp [innerLoop, hne]

/-- With enough inner fuel, the outer loop produces exactly the expected
trace. -/
lemma outerLoop_eq (ctx : SchedCtx) (n : ℕ) :
    ∀ fuel r w st, 2 ≤ fuel →
      outerLoop ctx n fuel r w st = some (schedFrames ctx n r w st) := by
  induction n with
  | zero =>
    intro fuel r w st hfuel
    simp [outerLoop, schedFrames]
  | succ n ih =>
    intro fuel r w st hfuel
    rw [outerLoop]
    rw [innerLoop_step ctx (rebuild ctx (readClock ctx r) st) fuel r w hfuel]
    dsimp only
    rw [ih fuel (r + 2) (w + 1) (rebuild ctx (readClock ctx r) st) hfuel]
    simp [schedFrames, iterEvents, List.cons_append, List.append_assoc]

/-- With enough inner fuel, a run produces exactly the expected trace. -/
lemma runSched_eq (ctx : SchedCtx) (n fuel : ℕ) (hfuel : 2 ≤ fuel) :
    runSched ctx n fuel = some (schedTrace ctx n) :=
  outerLoop_eq ctx n fuel 0 0 ⟨[], 0, 0, 0⟩ hfuel

lemma filterMap_replicate_none {α β : Type} (f : α → Option β) (a : α)
    (h : f a = none) (k : ℕ) : (List.replicate k a).filterMap f = [] := by
  induction k with
  | zero => rfl
  | succ k ih => simp [List.replicate_succ, List.filterMap_cons, h, ih]

lemma readSecs_schedFrames (ctx : SchedCtx) (n : ℕ) :
    ∀ r w st, readSecs (schedFrames ctx n r w st) =
      (List.range' r (2 * n)).map (fun i => tmSec (readClock ctx i)) := by
  induction n with
  | zero =>
    intro r w st
    simp [schedFrames, readSecs]
  | succ n ih =>
    intro r w st
    have hrange : List.range' r (2 * (n + 1)) = r :: (r + 1) :: List.range' (r + 2) (2 * n) := by
      have h2 : 2 * (n + 1) = (2 * n + 1) + 1 := by ring
      rw [h2, List.range'_succ, List.range'_succ]
    rw [hrange]
    unfold schedFrames
    unfold readSecs at ih ⊢
    simp only [List.filterMap_append, iterEvents, List.filterMap_cons,
      filterMap_replicate_none (fun e => match e with | Ev.readSec s => some s | _ => none)
        Ev.pollBusy rfl]
    rw [ih (r + 2) (w + 1) (rebuild ctx (readClock ctx r) st)]
    simp

lemma regenSecs_schedFrames (ctx : SchedCtx) (n : ℕ) :
    ∀ r w st, regenSecs (schedFrames ctx n r w st) =
      (List.range n).map (fun k => tmSec (readClock ctx (r + 2 * k))) := by
  induction n with
  | zero =>
    intro r w st
    simp [schedFrames, regenSecs]
  | succ n ih =>
    intro r w st
    rw [List.range_succ_eq_map]
    unfold schedFrames
    unfold regenSecs at ih ⊢
    simp only [List.filterMap_append, iterEvents, List.filterMap_cons,
      filterMap_replicate_none (fun e => match e with | Ev.regen s _ => some s | _ => none)
        Ev.pollBusy rfl]
    rw [ih (r + 2) (w + 1) (rebuild ctx (readClock ctx r) st)]
    simp [List.map_map, Function.comp]
    intro a ha
    have h2 : r + 2 + 2 * a = r + 2 * (a + 1) := by ring
    rw [h2]

lemma regenFrames_schedFrames (ctx : SchedCtx) (n : ℕ) :
    ∀ r w st, regenFrames (schedFrames ctx n r w st) = framesList ctx n r st := by
  induction n with
  | zero =>
    intro r w st
    simp [schedFrames, framesList, regenFrames]
  | succ n ih =>
    intro r w st
    unfold schedFrames framesList
    unfold regenFrames at ih ⊢
    simp only [List.filterMap_append, iterEvents, List.filterMap_cons,
      filterMap_replicate_none (fun e => match e with | Ev.regen _ f => some f | _ => none)
        Ev.pollBusy rfl]
    rw [ih (r + 2) (w + 1) (rebuild ctx (readClock ctx r) st)]
    simp

lemma writtenFrames_schedFrames (ctx : SchedCtx) (n : ℕ) :
    ∀ r w st, writtenFrames (schedFrames ctx n r w st) = framesList ctx n r st := by
  induction n with
  | zero =>
    intro r w st
    simp [schedFrames, framesList, writtenFrames]
  | succ n ih =>
    intro r w st
    unfold schedFrames framesList
    unfold writtenFrames at ih ⊢
    simp only [List.filterMap_append, iterEvents, List.filterMap_cons,
      filterMap_replicate_none (fun e => match e with | Ev.write f => some f | _ => none)
        Ev.pollBusy rfl]
    rw [ih (r + 2) (w + 1) (rebuild ctx (readClock ctx r) st)]
    simp

lemma framesList_length (ctx : SchedCtx) (n : ℕ) :
    ∀ r st, (framesList ctx n r st).length = n := by
  induction n with
  | zero =>
    intro r st
    rfl
  | succ n ih =>
    intro r st
    unfold framesList
    rw [List.length_cons, ih]

lemma writesAfterReady_busy (b : ℕ) (l : List Ev) :
    writesAfterReady (List.replicate b Ev.pollBusy ++ l) = writesAfterReady l := by
  induction b with
  | zero => rfl
  | succ b ih => simp [List.replicate_succ, writesAfterReady, ih]

lemma writesAfterReady_iter (ctx : SchedCtx) (r w : ℕ) (st1 : St) (l : List Ev) :
    writesAfterReady (iterEvents ctx r w st1 ++ l) = writesAfterReady l := by
  unfold iterEvents
  simp only [List.cons_append, List.append_assoc, List.nil_append]
  simp only [writesAfterReady]
  rw [writesAfterReady_busy]
  simp only [writesAfterReady]

lemma writesAfterReady_schedFrames (ctx : SchedCtx) (n : ℕ) :
    ∀ r w st, writesAfterReady (schedFrames ctx n r w st) = true := by
  induction n with
  | zero =>
    intro r w st
    rfl
  | succ n ih =>
    intro r w st
    unfold schedFrames
    rw [writesAfterReady_iter, ih]

/-- C9 counterexample to the claim as stated: under the spec's simulated
clock (one second per call) the run of two outer iterations observes the
seconds 0, 1, 2, 3 but rebuilds only for 0 and 2 — the observed second 1
never gets a rebuild, so the outer loop does not regenerate once per
distinct observed second value; the trace also shows each write happening
after the read that revealed the next second, not before the value
changed. -/
theorem c9_scheduler_counterexample :
    readSecs (schedTrace ctx0 2) = [0, 1, 2, 3] ∧
      regenSecs (schedTrace ctx0 2) = [0, 2] ∧
      (1 : ℤ) ∈ readSecs (schedTrace ctx0 2) ∧
      (1 : ℤ) ∉ regenSecs (schedTrace ctx0 2) := by
  have hr : readSecs (schedTrace ctx0 2) = [0, 1, 2, 3] := by
    rw [schedTrace, readSecs_schedFrames]
    decide
  have hg : regenSecs (schedTrace ctx0 2) = [0, 2] := by
    rw [schedTrace, regenSecs_schedFrames]
    decide
  refine ⟨hr, hg, ?_, ?_⟩
  · rw [hr]
    decide
  · rw [hg]
    decide

/-- C9 (corrected): under the simulated clock that advances one second per
call, a run with sufficient inner fuel produces exactly the expected trace:
the outer loop rebuilds the (cleared) buffer exactly once per outer
iteration, at the seconds observed at clock reads 0, 2, 4, …; the inner
loop writes each regenerated frame exactly once (the write following the
read that revealed the next second) before the next rebuild; and every
device write is immediately preceded by the device reporting ready. -/
theorem c9_scheduler_amended (ctx : SchedCtx) (n fuel : ℕ) (hfuel : 2 ≤ fuel) :
    runSched ctx n fuel = some (schedTrace ctx n) ∧
      regenSecs (schedTrace ctx n) =
        (List.range n).map (fun k => tmSec (readClock ctx (2 * k))) ∧
      readSecs (schedTrace ctx n) =
        (List.range' 0 (2 * n)).map (fun i => tmSec (readClock ctx i)) ∧
      writtenFrames (schedTrace ctx n) = regenFrames (schedTrace ctx n) ∧
      (regenFrames (schedTrace ctx n)).length = n ∧
      writesAfterReady (schedTrace ctx n) = true := by
  refine ⟨runSched_eq ctx n fuel hfuel, ?_, ?_, ?_, ?_, ?_⟩
  · rw [schedTrace, regenSecs_schedFrames]
    simp
  · rw [schedTrace, readSecs_schedFrames]
  · rw [schedTrace, writtenFrames_schedFrames, regenFrames_schedFrames]
  · rw [schedTrace, regenFrames_schedFrames, framesList_length]
  · rw [schedTrace]
    exact writesAfterReady_schedFrames ctx n 0 0 _

/-- Witness for C9 (amended) at the concrete context `ctx0` with one frame
and the minimal sufficient fuel. -/
theorem c9_scheduler_amended_witness :
    runSched ctx0 1 2 = some (schedTrace ctx0 1) ∧
      regenSecs (schedTrace ctx0 1) =
        (List.range 1).map (fun k => tmSec (readClock ctx0 (2 * k))) ∧
      readSecs (schedTrace ctx0 1) =
        (List.range' 0 (2 * 1)).map (fun i => tmSec (readClock ctx0 i)) ∧
      writtenFrames (schedTrace ctx0 1) = regenFrames (schedTrace ctx0 1) ∧
      (regenFrames (schedTrace ctx0 1)).length = 1 ∧
      writesAfterReady (schedTrace ctx0 1) = true :=
  c9_scheduler_amended ctx0 1 2 (by decide)

end LaserClock
